import Mathlib

/-!
Verification development for the dialogue repository: a real-time
audio-to-transcript pipeline. The definitions below are a shallow embedding
of the transcript handler and audio stream in src/dialogue/main.py and the
WebSocket room relay in src/dialogue/api_server.py. Timestamps are modelled
as rationals; Python dicts with known keys are modelled as structures with
Option fields (a field is some v exactly when the key is present).
-/

namespace Dialogue

/-- Python str character test used by str.strip on ASCII input: space and the
ASCII control whitespace characters. -/
def pyIsSpace (c : Char) : Bool :=
  c = ' ' || c = '\t' || c = '\n' || c = '\x0d' || c = '\x0b' || c = '\x0c'

/-- Python str.strip with no argument: drop leading and trailing whitespace. -/
def pyStrip (s : String) : String :=
  String.mk (((s.data.dropWhile pyIsSpace).reverse.dropWhile pyIsSpace).reverse)

/-- One element of the alternatives array of a Speechmatics result:
the handler reads keys content and speaker with .get defaults. -/
structure Alt where
  content : Option String
  speaker : Option String
deriving DecidableEq

/-- A Speechmatics result dict as read by the handler:
result.get with key alternatives (default empty list) and key start_time
(default 0.0). -/
structure SMResult where
  alternatives : Option (List Alt)
  start_time : Option Rat
deriving DecidableEq

/-- The metadata sub-dict of an AddTranscript message: the handler only asks
whether it holds a results key. -/
structure Meta where
  results : Option (List SMResult)
deriving DecidableEq

/-- An AddTranscript message dict as read by on_final_transcript: it may hold
a top-level results key, a metadata key, and, when treated as a bare result,
its own alternatives and start_time keys. -/
structure Msg where
  results : Option (List SMResult)
  metadata : Option Meta
  alternatives : Option (List Alt)
  start_time : Option Rat
deriving DecidableEq

/-- Reading the message itself as a single result (the final fallback branch
results = [msg] of on_final_transcript). -/
def Msg.toResult (m : Msg) : SMResult :=
  { alternatives := m.alternatives, start_time := m.start_time }

/-- Extraction of the results list in on_final_transcript, in source order:
a top-level results key first, then a results key nested under metadata,
otherwise the whole message as a single result. -/
def extractResults (msg : Msg) : List SMResult :=
  match msg.results with
  | some rs => rs
  | none =>
    match msg.metadata with
    | some md =>
      match md.results with
      | some rs => rs
      | none => [msg.toResult]
    | none => [msg.toResult]

/-- An entry of the per-speaker message store speaker_messages:
the dict appended in on_final_transcript with keys text and timestamp. -/
structure StoredMsg where
  text : String
  timestamp : Rat
deriving DecidableEq

/-- The message_data dict published to the frontend: keys type, speaker,
text, timestamp. -/
structure Message where
  type : String
  speaker : String
  text : String
  timestamp : Rat
deriving DecidableEq

/-- State touched by on_final_transcript: the speaker_messages dict
(modelled as an insertion-ordered association list, as Python dicts are) and
the chronological list of messages published via publish_data. -/
structure HState where
  speaker_messages : List (String × List StoredMsg)
  published : List Message
deriving DecidableEq

def initState : HState := { speaker_messages := [], published := [] }

/-- speaker_messages[speaker].append(entry), creating the key with an empty
list first when absent, exactly as the handler does. -/
def storeAdd (st : List (String × List StoredMsg)) (sp : String)
    (m : StoredMsg) : List (String × List StoredMsg) :=
  match st with
  | [] => [(sp, [m])]
  | (k, v) :: rest =>
    if k = sp then (k, v ++ [m]) :: rest else (k, v) :: storeAdd rest sp m

/-- Dict lookup in the speaker store (an absent speaker reads as the empty
list, for stating properties). -/
def storeGet (st : List (String × List StoredMsg)) (sp : String) :
    List StoredMsg :=
  match st with
  | [] => []
  | (k, v) :: rest => if k = sp then v else storeGet rest sp

/-- The body of the for-loop of on_final_transcript for one result: read the
alternatives (default empty), skip an empty alternatives list, read content,
speaker (default unknown) and start_time (default 0.0), and when the stripped
text is non-empty append to the speaker store and publish the message_data
dict. -/
def processResult (st : HState) (r : SMResult) : HState :=
  match r.alternatives.getD [] with
  | [] => st
  | a :: _ =>
    let text := a.content.getD ""
    let speaker := a.speaker.getD "unknown"
    let start_time := r.start_time.getD 0
    if pyStrip text = "" then st
    else
      { speaker_messages := storeAdd st.speaker_messages speaker
          { text := text, timestamp := start_time },
        published := st.published ++
          [{ type := "transcription", speaker := speaker, text := text,
             timestamp := start_time }] }

/-- Processing of one AddTranscript message by on_final_transcript: extract
the results list and run the loop body on each result in order. -/
def processMsg (st : HState) (msg : Msg) : HState :=
  (extractResults msg).foldl processResult st

/-- Processing of a sequence of final transcript events in arrival order. -/
def processMsgs (st : HState) (msgs : List Msg) : HState :=
  msgs.foldl processMsg st

/-!
AudioStream (src/dialogue/main.py): a file-like object whose read method
drains a thread-safe queue of byte frames. The queue is modelled as the list
of items available to the reads under study, in order; the item none is the
close sentinel put by the lifecycle code, some bytes is an audio frame (bytes
as a list of naturals). A queue.get on the exhausted list models the Empty
timeout branch.
-/

/-- The accumulation while-loop of AudioStream.read: pull items until the
buffer holds at least 4096 bytes, the sentinel arrives (setting the closed
flag), or the queue is empty with a non-empty buffer. Returns the remaining
queue, the buffer and the closed flag after the loop; the result none models
the branch that retries forever (timeout with an empty buffer and an
exhausted queue). -/
def readAccum : List (Option (List Nat)) → List Nat →
    Option (List (Option (List Nat)) × List Nat × Bool)
  | q, buf =>
    if buf.length < 4096 then
      match q with
      | [] => if buf.length > 0 then some ([], buf, false) else none
      | none :: rest => some (rest, buf, true)
      | some d :: rest => readAccum rest (buf ++ d)
    else some (q, buf, false)

/-- State of an AudioStream: the pending queue items, the internal byte
buffer, and the _closed flag. -/
structure AudioStream where
  queue : List (Option (List Nat))
  buffer : List Nat
  closed : Bool
deriving DecidableEq

/-- AudioStream.read: return empty bytes at once when closed, otherwise run
the accumulation loop and slice the buffer by size (size = -1 or size at
least the buffer length returns the whole buffer). Returns the bytes handed
to the caller and the stream state after the call; none models a read that
blocks forever. -/
def AudioStream.read (s : AudioStream) (size : Int) :
    Option (List Nat × AudioStream) :=
  if s.closed then some ([], s)
  else
    match readAccum s.queue s.buffer with
    | none => none
    | some (q, buf, c) =>
      if size = -1 ∨ (buf.length : Int) ≤ size then
        some (buf, { queue := q, buffer := [], closed := c })
      else
        some (buf.take size.toNat,
              { queue := q, buffer := buf.drop size.toNat, closed := c })

/-- Repeatedly call read with size -1 until the stream is closed or the fuel
runs out, concatenating the returned bytes; models a consumer that drains
the stream. -/
def drainAll : Nat → AudioStream → List Nat × AudioStream
  | 0, s => ([], s)
  | n + 1, s =>
    if s.closed then ([], s)
    else
      match s.read (-1) with
      | none => ([], s)
      | some (out, t) =>
        let rest := drainAll n t
        (out ++ rest.1, rest.2)

/-!
WebSocket relay (src/dialogue/api_server.py, websocket_endpoint): the room
registry app.state.room_clients maps a room name to the list of accepted
sockets in connection order. A socket is modelled by an identifier plus a
flag telling whether send_text on it raises (connection already closed).
-/

/-- A connected WebSocket client as seen by the relay loop. -/
structure WClient where
  id : Nat
  failsSend : Bool
deriving DecidableEq

/-- The room registry app.state.room_clients. -/
def Registry := List (String × List WClient)

instance : DecidableEq Registry := by
  unfold Registry
  infer_instance

/-- Dict lookup room_clients[room_name]. -/
def regGet (reg : Registry) (room : String) : Option (List WClient) :=
  match reg with
  | [] => none
  | (k, v) :: rest => if k = room then some v else regGet rest room

/-- The broadcast for-loop of websocket_endpoint: send data to every client
of the room other than the receiving socket, in list order; the first send
that raises aborts the loop. Returns the (client, data) deliveries made and
the identifier of the failing client when one aborted the loop. -/
def broadcastLoop (ws : Nat) (data : String) :
    List WClient → List (Nat × String) × Option Nat
  | [] => ([], none)
  | c :: rest =>
    if c.id = ws then broadcastLoop ws data rest
    else if c.failsSend then ([], some c.id)
    else
      let r := broadcastLoop ws data rest
      ((c.id, data) :: r.1, r.2)

/-- Python list.remove(ws): drop the first client with the given identifier. -/
def removeFirst (l : List WClient) (ws : Nat) : List WClient :=
  match l with
  | [] => []
  | c :: rest => if c.id = ws then rest else c :: removeFirst rest ws

/-- The except WebSocketDisconnect branch of websocket_endpoint: remove the
socket from its room list and delete the room key when the list is left
empty. Only the first entry of the room key is touched, as for a Python
dict. -/
def handleDisconnect (reg : Registry) (room : String) (ws : Nat) : Registry :=
  match reg with
  | [] => []
  | (k, v) :: rest =>
    if k = room then
      let v1 := removeFirst v ws
      if v1 = [] then rest else (k, v1) :: rest
    else (k, v) :: handleDisconnect rest room ws

/-- How one iteration of the endpoint loop ends when it does not continue. -/
inductive ExitKind where
  | disconnected
  | sendError (failingId : Nat)
deriving DecidableEq

/-- Result of one iteration of the websocket_endpoint loop: the deliveries
made, the registry afterwards, and how the iteration ended (none when the
loop continues to the next receive). -/
structure IterResult where
  delivered : List (Nat × String)
  registryAfter : Registry
  exit : Option ExitKind
deriving DecidableEq

/-- What receive_text yields on one iteration. -/
inductive RecvEvent where
  | text (data : String)
  | disconnect
deriving DecidableEq

/-- One iteration of the websocket_endpoint loop for socket ws of the named
room. A WebSocketDisconnect from receive_text is caught by the except clause,
which removes the socket and deletes the room when emptied. A send_text
failure during the broadcast raises an exception that is not a
WebSocketDisconnect, so it escapes the handler: the except clause does not
run and the registry is left unchanged. -/
def wsIteration (reg : Registry) (room : String) (ws : Nat) :
    RecvEvent → IterResult
  | .text data =>
    let clients := (regGet reg room).getD []
    let r := broadcastLoop ws data clients
    match r.2 with
    | some fid =>
      { delivered := r.1, registryAfter := reg, exit := some (.sendError fid) }
    | none => { delivered := r.1, registryAfter := reg, exit := none }
  | .disconnect =>
    { delivered := [], registryAfter := handleDisconnect reg room ws,
      exit := some .disconnected }

/-!
run_speechmatics (src/dialogue/main.py): the thread target that starts the
Speechmatics client and runs it synchronously. Its whole body is wrapped in
try/except Exception, so no exception escapes the thread function. The
outcome of run_synchronously is a parameter of the model.
-/

/-- How the call to run_synchronously ends: normal return, a ConnectError
(service unreachable or authentication failure), or any other exception. -/
inductive SMOutcome where
  | ok
  | connectError
  | otherError
deriving DecidableEq

/-- An exception value as it would propagate out of a Python function. -/
inductive PyExn where
  | connectError
  | otherExn
deriving DecidableEq

/-- The exception raised by sm_client.run_synchronously for a given
outcome. -/
def runSynchronously : SMOutcome → Option PyExn
  | .ok => none
  | .connectError => some .connectError
  | .otherError => some .otherExn

/-- The run_speechmatics thread target: run the client; the except Exception
clause catches every exception and logs it. The first component is the
exception escaping the function (reaching the thread machinery and the
session lifecycle), the second tells whether the error-logging branch ran. -/
def run_speechmatics (o : SMOutcome) : Option PyExn × Bool :=
  match runSynchronously o with
  | none => (none, false)
  | some _ => (none, true)

/-!
Transcript log abstraction: the handler keeps no explicit sequence counter,
so the transcript log of the session is the chronological list of published
messages, and the sequence number of an entry is its 1-based position in
that list. specTranscript builds the log the way the specification words it,
for comparison.
-/

/-- A committed transcript entry: speaker, text and sequence number. -/
structure TranscriptEntry where
  speaker : String
  text : String
  seq : Nat
deriving DecidableEq

/-- Number a list of published messages with consecutive sequence numbers
starting at n. -/
def numberFrom (n : Nat) : List Message → List TranscriptEntry
  | [] => []
  | m :: rest => { speaker := m.speaker, text := m.text, seq := n } ::
      numberFrom (n + 1) rest

/-- The transcript log the code produces for a sequence of final events:
published messages in commit order, numbered from 1. -/
def codeLog (msgs : List Msg) : List TranscriptEntry :=
  numberFrom 1 (processMsgs initState msgs).published

/-- A final recognition event carrying one result with one alternative, as
delivered by the recognizer: speaker, text and start time. -/
def finalEvent (sp text : String) (t : Rat) : Msg :=
  let a : Alt := { content := some text, speaker := some sp }
  let r : SMResult := { alternatives := some [a], start_time := some t }
  { results := some [r], metadata := none, alternatives := none,
    start_time := none }

/-- Modelled from the spec: a final event appends an immutable entry with
the next sequence number, and empty or whitespace-only text is discarded. -/
def specTranscript (n : Nat) : List (String × String × Rat) →
    List TranscriptEntry
  | [] => []
  | (sp, text, _) :: rest =>
    if pyStrip text = "" then specTranscript n rest
    else { speaker := sp, text := text, seq := n } ::
      specTranscript (n + 1) rest

/-- The message a single-result final event publishes, none when its text is
blank. -/
def keepMsg (e : String × String × Rat) : Option Message :=
  if pyStrip e.2.1 = "" then none
  else some { type := "transcription", speaker := e.1, text := e.2.1,
              timestamp := e.2.2 }

/-- A message carrying the result under a top-level results key. -/
def topShape (r : SMResult) : Msg :=
  { results := some [r], metadata := none, alternatives := none,
    start_time := none }

/-- A message carrying the result under metadata.results. -/
def metaShape (r : SMResult) : Msg :=
  { results := none, metadata := some { results := some [r] },
    alternatives := none, start_time := none }

/-- A message that is the bare result itself (no results and no metadata
keys, the result fields at top level). -/
def bareShape (r : SMResult) : Msg :=
  { results := none, metadata := none, alternatives := r.alternatives,
    start_time := r.start_time }

/-- A concrete alternative, for instantiating properties. -/
def sampleAlt : Alt := { content := some "hi", speaker := some "A" }

/-- A concrete result, for instantiating properties. -/
def sampleResult : SMResult :=
  { alternatives := some [sampleAlt], start_time := some 1 }

/-- The per-speaker store agrees with the published log: for every speaker,
the stored texts are the published texts of that speaker, in order. -/
def storeConsistent (st : HState) : Prop :=
  ∀ sp, (storeGet st.speaker_messages sp).map StoredMsg.text =
    (st.published.filter (fun m => m.speaker == sp)).map Message.text

example :
    processResult initState
      { alternatives := some [{ content := some "hi", speaker := some "A" }],
        start_time := some 2 } =
    { speaker_messages := [("A", [{ text := "hi", timestamp := 2 }])],
      published := [{ type := "transcription", speaker := "A", text := "hi",
                      timestamp := 2 }] } := by
  decide

example :
    processResult initState
      { alternatives := some [{ content := some "  ", speaker := some "A" }],
        start_time := none } = initState := by
  decide

/-- A result whose alternatives key is absent or an empty list changes
nothing. -/
lemma processResult_no_alternatives (st : HState) (r : SMResult)
    (h : r.alternatives.getD [] = []) : processResult st r = st := by
  unfold processResult
  rw [h]

/-- A result whose first alternative has blank content changes nothing. -/
lemma processResult_blank (st : HState) (r : SMResult) (a : Alt)
    (l : List Alt) (halt : r.alternatives = some (a :: l))
    (hblank : pyStrip (a.content.getD "") = "") : processResult st r = st := by
  unfold processResult
  rw [halt]
  simp [hblank]

/-- A result whose first alternative has non-blank content appends to the
store and publishes the message_data dict. -/
lemma processResult_commit (st : HState) (r : SMResult) (a : Alt)
    (l : List Alt) (halt : r.alternatives = some (a :: l))
    (htext : pyStrip (a.content.getD "") ≠ "") :
    processResult st r =
      { speaker_messages := storeAdd st.speaker_messages (a.speaker.getD "unknown")
          { text := a.content.getD "", timestamp := r.start_time.getD 0 },
        published := st.published ++
          [{ type := "transcription", speaker := a.speaker.getD "unknown",
             text := a.content.getD "", timestamp := r.start_time.getD 0 }] } := by
  unfold processResult
  rw [halt]
  simp [htext]

/-- C4: when starting the recognizer fails with a ConnectError, the error
does not propagate out of run_speechmatics: the blanket except clause
catches and logs it, falsifying the claim that it reaches the lifecycle
controller. -/
theorem c4_connect_error_swallowed_cex :
    run_speechmatics SMOutcome.connectError = (none, true) := by
  decide

/-- C4 (amended): no exception at all escapes run_speechmatics; error
outcomes, ConnectError included, are caught by the except Exception clause
and only logged, so the session lifecycle never observes them. -/
theorem c4_no_exception_escapes (o : SMOutcome) :
    (run_speechmatics o).1 = none ∧
    (run_speechmatics o).2 = (runSynchronously o).isSome := by
  cases o <;> decide

/-- C7: a result whose extracted text is empty or whitespace-only creates no
transcript entry and publishes nothing: the handler state, the per-speaker
store included, is unchanged. -/
theorem c7_blank_text_discarded (st : HState) (r : SMResult) (a : Alt)
    (l : List Alt) (halt : r.alternatives = some (a :: l))
    (hblank : pyStrip (a.content.getD "") = "") :
    processResult st r = st ∧
    (processResult st r).speaker_messages = st.speaker_messages ∧
    (processResult st r).published = st.published := by
  have h := processResult_blank st r a l halt hblank
  exact ⟨h, by rw [h], by rw [h]⟩

/-- C7 witness: whitespace-only content at a concrete input. -/
theorem c7_blank_text_discarded_witness :
    processResult initState
      { alternatives := some [{ content := some " \t ", speaker := some "A" }],
        start_time := some 1 } = initState ∧
    (processResult initState
      { alternatives := some [{ content := some " \t ", speaker := some "A" }],
        start_time := some 1 }).published = initState.published := by
  have h := c7_blank_text_discarded initState
    { alternatives := some [{ content := some " \t ", speaker := some "A" }],
      start_time := some 1 }
    { content := some " \t ", speaker := some "A" } [] rfl (by decide)
  exact ⟨h.1, h.2.2⟩

/-- C8: a final result with non-blank text publishes exactly the object with
fields type = transcription, speaker (defaulting to unknown when the result
carries no speaker), text, and timestamp equal to start_time (defaulting to
0 when absent). -/
theorem c8_published_message_shape (st : HState) (r : SMResult) (a : Alt)
    (l : List Alt) (halt : r.alternatives = some (a :: l))
    (htext : pyStrip (a.content.getD "") ≠ "") :
    (processResult st r).published = st.published ++
      [{ type := "transcription", speaker := a.speaker.getD "unknown",
         text := a.content.getD "", timestamp := r.start_time.getD 0 }] := by
  rw [processResult_commit st r a l halt htext]

/-- C8 witness: a concrete result with no speaker and no start_time
publishes speaker unknown and timestamp 0. -/
theorem c8_published_message_shape_witness :
    (processResult initState
      { alternatives := some [{ content := some "hi", speaker := none }],
        start_time := none }).published =
      [{ type := "transcription", speaker := "unknown", text := "hi",
         timestamp := 0 }] := by
  have h := c8_published_message_shape initState
    { alternatives := some [{ content := some "hi", speaker := none }],
      start_time := none }
    { content := some "hi", speaker := none } [] rfl (by decide)
  simpa [initState] using h

/-- C10: a result whose alternatives key is missing or an empty list
contributes nothing to the store or the published log, and the remaining
results of the event are processed exactly as if it were absent. -/
theorem c10_empty_alternatives_skipped (st : HState) (r : SMResult)
    (xs ys : List SMResult) (h : r.alternatives.getD [] = []) :
    processResult st r = st ∧
    List.foldl processResult st (xs ++ r :: ys) =
      List.foldl processResult st (xs ++ ys) := by
  refine ⟨processResult_no_alternatives st r h, ?_⟩
  rw [List.foldl_append, List.foldl_append, List.foldl_cons,
    processResult_no_alternatives _ r h]

/-- C10 witness: an alternatives-free result between two normal results. -/
theorem c10_empty_alternatives_skipped_witness :
    processResult initState
      { alternatives := none, start_time := some 3 } = initState ∧
    List.foldl processResult initState
      ([{ alternatives := some [{ content := some "a", speaker := some "A" }],
          start_time := none }] ++
        { alternatives := none, start_time := some 3 } ::
        [{ alternatives := some [{ content := some "b", speaker := some "B" }],
           start_time := none }]) =
    List.foldl processResult initState
      ([{ alternatives := some [{ content := some "a", speaker := some "A" }],
          start_time := none }] ++
        [{ alternatives := some [{ content := some "b", speaker := some "B" }],
           start_time := none }]) := by
  exact c10_empty_alternatives_skipped initState
    { alternatives := none, start_time := some 3 }
    [{ alternatives := some [{ content := some "a", speaker := some "A" }],
       start_time := none }]
    [{ alternatives := some [{ content := some "b", speaker := some "B" }],
       start_time := none }] rfl

/-- C1: the handler checks, in source order, a top-level results key, then a
results key nested under metadata, and otherwise treats the whole message as
a single result; a result expressible in all three shapes is extracted
identically from each, the handler state changes identically, and with
non-blank text all three variants commit the same transcript entry. -/
theorem c1_shape_tolerance (r : SMResult) (st : HState) (a : Alt)
    (l : List Alt) (halt : r.alternatives = some (a :: l))
    (htext : pyStrip (a.content.getD "") ≠ "") :
    (∀ msg rs, msg.results = some rs → extractResults msg = rs) ∧
    (∀ msg md rs, msg.results = none → msg.metadata = some md →
      md.results = some rs → extractResults msg = rs) ∧
    (∀ msg : Msg, msg.results = none →
      (msg.metadata = none ∨ ∃ md, msg.metadata = some md ∧ md.results = none) →
      extractResults msg = [msg.toResult]) ∧
    extractResults (topShape r) = [r] ∧
    extractResults (metaShape r) = [r] ∧
    extractResults (bareShape r) = [r] ∧
    processMsg st (topShape r) = processMsg st (metaShape r) ∧
    processMsg st (metaShape r) = processMsg st (bareShape r) ∧
    (processMsg st (topShape r)).published = st.published ++
      [{ type := "transcription", speaker := a.speaker.getD "unknown",
         text := a.content.getD "", timestamp := r.start_time.getD 0 }] := by
  have htop : extractResults (topShape r) = [r] := rfl
  have hmeta : extractResults (metaShape r) = [r] := rfl
  have hbare : extractResults (bareShape r) = [r] := rfl
  refine ⟨?_, ?_, ?_, htop, hmeta, hbare, ?_, ?_, ?_⟩
  · intro msg rs h
    simp [extractResults, h]
  · intro msg md rs h1 h2 h3
    simp [extractResults, h1, h2, h3]
  · intro msg h1 h2
    rcases h2 with h2 | ⟨md, h2, h3⟩
    · simp [extractResults, h1, h2]
    · simp [extractResults, h1, h2, h3]
  · unfold processMsg
    rw [htop, hmeta]
  · unfold processMsg
    rw [hmeta, hbare]
  · unfold processMsg
    rw [htop, List.foldl_cons, List.foldl_nil,
      processResult_commit st r a l halt htext]

/-- C1 witness: a concrete result carried by each of the three shapes. -/
theorem c1_shape_tolerance_witness :
    extractResults (topShape sampleResult) = [sampleResult] ∧
    processMsg initState (topShape sampleResult) =
      processMsg initState (metaShape sampleResult) ∧
    processMsg initState (metaShape sampleResult) =
      processMsg initState (bareShape sampleResult) := by
  have h := c1_shape_tolerance sampleResult initState sampleAlt []
    (by decide) (by decide)
  exact ⟨h.2.2.2.1, h.2.2.2.2.2.2.1, h.2.2.2.2.2.2.2.1⟩

/-- The broadcast loop, when every send succeeds, delivers data exactly to
the clients other than the receiving socket, in connection order. -/
lemma broadcastLoop_all_ok (ws : Nat) (data : String) (room : List WClient)
    (hok : ∀ c ∈ room, c.failsSend = false) :
    broadcastLoop ws data room =
      ((room.filter (fun c => c.id != ws)).map (fun c => (c.id, data)), none) := by
  induction room with
  | nil => rfl
  | cons c rest ih =>
    have hc : c.failsSend = false := hok c (List.mem_cons_self c rest)
    have hrest : ∀ x ∈ rest, x.failsSend = false := fun x hx =>
      hok x (List.mem_cons_of_mem c hx)
    unfold broadcastLoop
    by_cases hid : c.id = ws
    · simp [hid, ih hrest]
    · simp [hid, hc, ih hrest]

/-- The broadcast loop up to the first failing non-sender client: the
preceding non-sender clients are delivered to, the loop aborts with that
client's identifier. -/
lemma broadcastLoop_first_failure (ws : Nat) (data : String)
    (pre post : List WClient) (c : WClient)
    (hpre : ∀ x ∈ pre, x.id ≠ ws → x.failsSend = false)
    (hc : c.id ≠ ws) (hf : c.failsSend = true) :
    broadcastLoop ws data (pre ++ c :: post) =
      ((pre.filter (fun x => x.id != ws)).map (fun x => (x.id, data)),
       some c.id) := by
  induction pre with
  | nil =>
    unfold broadcastLoop
    simp [hc, hf]
  | cons x rest ih =>
    have hrest : ∀ y ∈ rest, y.id ≠ ws → y.failsSend = false := fun y hy =>
      hpre y (List.mem_cons_of_mem x hy)
    rw [List.cons_append]
    unfold broadcastLoop
    by_cases hid : x.id = ws
    · simp [hid, ih hrest]
    · have hx : x.failsSend = false :=
        hpre x (List.mem_cons_self x rest) hid
      simp [hid, hx, ih hrest]

/-- C6: a text message received from one room member is relayed verbatim to
every other member of that room, in connection order, and never sent back to
the sender; the iteration continues and leaves the registry unchanged. -/
theorem c6_relay_excludes_sender (reg : Registry) (room : String) (ws : Nat)
    (data : String) (clients : List WClient)
    (hreg : regGet reg room = some clients)
    (hok : ∀ c ∈ clients, c.failsSend = false) :
    wsIteration reg room ws (.text data) =
      { delivered := (clients.filter (fun c => c.id != ws)).map
          (fun c => (c.id, data)),
        registryAfter := reg, exit := none } ∧
    (∀ p ∈ (wsIteration reg room ws (.text data)).delivered,
      p.2 = data ∧ p.1 ≠ ws) := by
  have hbl := broadcastLoop_all_ok ws data clients hok
  have hmain : wsIteration reg room ws (.text data) =
      { delivered := (clients.filter (fun c => c.id != ws)).map
          (fun c => (c.id, data)),
        registryAfter := reg, exit := none } := by
    unfold wsIteration
    rw [hreg]
    simp [hbl]
  refine ⟨hmain, ?_⟩
  intro p hp
  rw [hmain] at hp
  simp only [List.mem_map, List.mem_filter] at hp
  obtain ⟨c, ⟨_, hcid⟩, hpc⟩ := hp
  constructor
  · rw [← hpc]
  · rw [← hpc]
    simpa using hcid

/-- C6 witness: two clients in a room, the first sends, only the second
receives. -/
theorem c6_relay_excludes_sender_witness :
    wsIteration [("r1", [⟨1, false⟩, ⟨2, false⟩])] "r1" 1 (.text "hello") =
      { delivered := [(2, "hello")],
        registryAfter := [("r1", [⟨1, false⟩, ⟨2, false⟩])], exit := none } ∧
    ((2 : Nat), "hello").2 = "hello" ∧ ((2 : Nat), "hello").1 ≠ 1 := by
  have h := c6_relay_excludes_sender [("r1", [⟨1, false⟩, ⟨2, false⟩])]
    "r1" 1 "hello" [⟨1, false⟩, ⟨2, false⟩] (by decide) (by decide)
  refine ⟨by simpa using h.1, ?_⟩
  have h2 := h.2 (2, "hello") (by rw [h.1]; decide)
  exact h2

/-- C3 counterexample: in a room with sender 1 and subscribers 2, 3, 4 where
the send to 3 fails, subscriber 4 never receives the message and subscriber
3 stays in the room registry: the failure aborts the rest of the broadcast
and removes nobody, falsifying the claim. -/
theorem c3_failing_send_cex :
    (wsIteration [("r", [⟨1, false⟩, ⟨2, false⟩, ⟨3, true⟩, ⟨4, false⟩])]
        "r" 1 (.text "hello")).delivered = [(2, "hello")] ∧
    ((4 : Nat), "hello") ∉
      (wsIteration [("r", [⟨1, false⟩, ⟨2, false⟩, ⟨3, true⟩, ⟨4, false⟩])]
        "r" 1 (.text "hello")).delivered ∧
    (wsIteration [("r", [⟨1, false⟩, ⟨2, false⟩, ⟨3, true⟩, ⟨4, false⟩])]
        "r" 1 (.text "hello")).registryAfter =
      [("r", [⟨1, false⟩, ⟨2, false⟩, ⟨3, true⟩, ⟨4, false⟩])] ∧
    (wsIteration [("r", [⟨1, false⟩, ⟨2, false⟩, ⟨3, true⟩, ⟨4, false⟩])]
        "r" 1 (.text "hello")).exit = some (.sendError 3) ∧
    (⟨3, true⟩ : WClient) ∈
      (regGet (wsIteration [("r", [⟨1, false⟩, ⟨2, false⟩, ⟨3, true⟩, ⟨4, false⟩])]
        "r" 1 (.text "hello")).registryAfter "r").getD [] := by
  refine ⟨rfl, by decide, rfl, rfl, by decide⟩

/-- C3 (amended): when the send to one subscriber raises, the non-sender
subscribers before it in connection order have already been delivered to,
the ones after it receive nothing, the exception escapes the handler (it is
not a WebSocketDisconnect, so the except clause does not run), and the room
registry is unchanged: the failing subscriber is not removed. -/
theorem c3_send_failure_aborts (reg : Registry) (room : String) (ws : Nat)
    (data : String) (pre post : List WClient) (c : WClient)
    (hreg : regGet reg room = some (pre ++ c :: post))
    (hpre : ∀ x ∈ pre, x.id ≠ ws → x.failsSend = false)
    (hc : c.id ≠ ws) (hf : c.failsSend = true) :
    wsIteration reg room ws (.text data) =
      { delivered := (pre.filter (fun x => x.id != ws)).map
          (fun x => (x.id, data)),
        registryAfter := reg, exit := some (.sendError c.id) } := by
  have hbl := broadcastLoop_first_failure ws data pre post c hpre hc hf
  unfold wsIteration
  rw [hreg]
  simp [hbl]

/-- C3 witness: the counterexample room, through the amended statement. -/
theorem c3_send_failure_aborts_witness :
    wsIteration [("r", [⟨1, false⟩, ⟨2, false⟩, ⟨3, true⟩, ⟨4, false⟩])]
        "r" 1 (.text "hello") =
      { delivered := [(2, "hello")],
        registryAfter := [("r", [⟨1, false⟩, ⟨2, false⟩, ⟨3, true⟩, ⟨4, false⟩])],
        exit := some (.sendError 3) } := by
  have h := c3_send_failure_aborts
    [("r", [⟨1, false⟩, ⟨2, false⟩, ⟨3, true⟩, ⟨4, false⟩])] "r" 1 "hello"
    [⟨1, false⟩, ⟨2, false⟩] [⟨4, false⟩] ⟨3, true⟩
    (by decide) (by decide) (by decide) rfl
  simpa using h

lemma regGet_cons (k : String) (v : List WClient) (rest : Registry)
    (room : String) :
    regGet ((k, v) :: rest) room =
      if k = room then some v else regGet rest room := rfl

lemma handleDisconnect_cons_eq (k : String) (v : List WClient)
    (rest : Registry) (room : String) (ws : Nat) (hk : k = room) :
    handleDisconnect ((k, v) :: rest) room ws =
      if removeFirst v ws = [] then rest
      else (k, removeFirst v ws) :: rest := by
  unfold handleDisconnect
  simp [hk]

lemma handleDisconnect_cons_ne (k : String) (v : List WClient)
    (rest : Registry) (room : String) (ws : Nat) (hk : k ≠ room) :
    handleDisconnect ((k, v) :: rest) room ws =
      (k, v) :: handleDisconnect rest room ws := by
  conv_lhs => unfold handleDisconnect
  simp [hk]

/-- A room name absent from the registry keys reads as none. -/
lemma regGet_eq_none_of_not_mem (reg : Registry) (room : String)
    (h : room ∉ reg.map Prod.fst) : regGet reg room = none := by
  induction reg with
  | nil => rfl
  | cons e rest ih =>
    obtain ⟨k, v⟩ := e
    rw [regGet_cons]
    have hk : k ≠ room := by
      intro heq
      exact h (by simp [← heq])
    rw [if_neg hk]
    exact ih (fun hm => h (by simp [List.map_cons]; right; simpa using hm))

/-- Removing a socket that occurs at most once leaves no occurrence. -/
lemma removeFirst_not_mem (v : List WClient) (ws : Nat)
    (h : (v.map WClient.id).count ws ≤ 1) :
    ws ∉ (removeFirst v ws).map WClient.id := by
  induction v with
  | nil => simp [removeFirst]
  | cons c rest ih =>
    unfold removeFirst
    by_cases hid : c.id = ws
    · rw [if_pos hid]
      have hcount : (rest.map WClient.id).count ws = 0 := by
        have := h
        simp [List.count_cons, hid] at this
        omega
      exact (List.count_eq_zero).1 hcount
    · rw [if_neg hid]
      have hrest : (rest.map WClient.id).count ws ≤ 1 := by
        have := h
        simp [List.count_cons, hid] at this
        omega
      intro hm
      rcases (List.mem_map).1 hm with ⟨x, hx, hxid⟩
      rcases (List.mem_cons).1 hx with hx1 | hx2
      · exact hid (by rw [hx1] at hxid; exact hxid)
      · exact ih hrest ((List.mem_map).2 ⟨x, hx2, hxid⟩)

/-- C9: a WebSocketDisconnect removes the socket from its room list; when
the list is left empty the room key is deleted from the registry; every
other room reads unchanged; and the disconnected socket, having occurred
once, no longer occurs in its room. -/
theorem c9_disconnect_cleanup (reg : Registry) (room : String) (ws : Nat)
    (v : List WClient) (hv : regGet reg room = some v)
    (hkeys : (reg.map Prod.fst).Nodup)
    (hcount : (v.map WClient.id).count ws ≤ 1) :
    regGet (handleDisconnect reg room ws) room =
      (if removeFirst v ws = [] then none else some (removeFirst v ws)) ∧
    (∀ r, r ≠ room →
      regGet (handleDisconnect reg room ws) r = regGet reg r) ∧
    ws ∉ (removeFirst v ws).map WClient.id ∧
    (wsIteration reg room ws .disconnect).registryAfter =
      handleDisconnect reg room ws := by
  refine ⟨?_, ?_, removeFirst_not_mem v ws hcount, rfl⟩
  · induction reg with
    | nil => exact absurd hv (by simp [regGet])
    | cons e rest ih =>
      obtain ⟨k, v0⟩ := e
      by_cases hk : k = room
      · have hv0 : v0 = v := by
          rw [regGet_cons, if_pos hk] at hv
          exact Option.some.inj hv
        subst hv0
        rw [handleDisconnect_cons_eq k v0 rest room ws hk]
        by_cases hempty : removeFirst v0 ws = []
        · rw [if_pos hempty, if_pos hempty]
          apply regGet_eq_none_of_not_mem
          intro hm
          rw [List.map_cons] at hkeys
          exact (List.nodup_cons.1 hkeys).1 (hk ▸ hm)
        · rw [if_neg hempty, regGet_cons, if_pos hk, if_neg hempty]
      · rw [handleDisconnect_cons_ne k v0 rest room ws hk,
          regGet_cons, if_neg hk]
        have hv1 : regGet rest room = some v := by
          rw [regGet_cons, if_neg hk] at hv
          exact hv
        have hkeys1 : (rest.map Prod.fst).Nodup := by
          rw [List.map_cons] at hkeys
          exact (List.nodup_cons.1 hkeys).2
        exact ih hv1 hkeys1
  · intro r hr
    clear hv hcount hkeys
    induction reg with
    | nil => rfl
    | cons e rest ih =>
      obtain ⟨k, v0⟩ := e
      by_cases hk : k = room
      · have hkr : k ≠ r := fun h => hr (by rw [← h, hk])
        rw [handleDisconnect_cons_eq k v0 rest room ws hk]
        by_cases hempty : removeFirst v0 ws = []
        · rw [if_pos hempty, regGet_cons, if_neg hkr]
        · rw [if_neg hempty, regGet_cons, if_neg hkr,
            regGet_cons, if_neg hkr]
      · rw [handleDisconnect_cons_ne k v0 rest room ws hk,
          regGet_cons, regGet_cons]
        by_cases hkr : k = r
        · rw [if_pos hkr, if_pos hkr]
        · rw [if_neg hkr, if_neg hkr]
          exact ih

/-- C9 witness: socket 2 disconnects from room b, room a is unaffected, and
disconnecting the last socket of a room deletes the room key. -/
theorem c9_disconnect_cleanup_witness :
    regGet (handleDisconnect [("a", [⟨1, false⟩]), ("b", [⟨2, false⟩, ⟨3, false⟩])]
        "b" 2) "b" =
      (if removeFirst [⟨2, false⟩, ⟨3, false⟩] 2 = [] then none
       else some (removeFirst [⟨2, false⟩, ⟨3, false⟩] 2)) ∧
    regGet (handleDisconnect [("a", [⟨1, false⟩]), ("b", [⟨2, false⟩, ⟨3, false⟩])]
        "b" 2) "a" =
      regGet [("a", [⟨1, false⟩]), ("b", [⟨2, false⟩, ⟨3, false⟩])] "a" ∧
    (2 : Nat) ∉ (removeFirst [⟨2, false⟩, ⟨3, false⟩] 2).map WClient.id := by
  have h := c9_disconnect_cleanup
    [("a", [⟨1, false⟩]), ("b", [⟨2, false⟩, ⟨3, false⟩])] "b" 2
    [⟨2, false⟩, ⟨3, false⟩] (by decide) (by decide) (by decide)
  exact ⟨h.1, h.2.1 "a" (by decide), h.2.2.1⟩


lemma readAccum_full (q : List (Option (List Nat))) (buf : List Nat)
    (h : ¬buf.length < 4096) : readAccum q buf = some (q, buf, false) := by
  conv_lhs => unfold readAccum
  simp [h]

lemma readAccum_sentinel (rest : List (Option (List Nat))) (buf : List Nat)
    (h : buf.length < 4096) :
    readAccum (none :: rest) buf = some (rest, buf, true) := by
  conv_lhs => unfold readAccum
  simp [h]

lemma readAccum_frame (d : List Nat) (rest : List (Option (List Nat)))
    (buf : List Nat) (h : buf.length < 4096) :
    readAccum (some d :: rest) buf = readAccum rest (buf ++ d) := by
  conv_lhs => unfold readAccum
  simp [h]

/-- A closed stream hands back empty bytes on every later read, whatever is
still buffered. -/
lemma read_closed (s : AudioStream) (size : Int) (h : s.closed = true) :
    s.read size = some ([], s) := by
  unfold AudioStream.read
  simp [h]

lemma drainAll_closed (n : Nat) (s : AudioStream) (h : s.closed = true) :
    drainAll n s = ([], s) := by
  cases n with
  | zero => rfl
  | succ n =>
    conv_lhs => unfold drainAll
    simp [h]

/-- The accumulation loop on a queue of frames followed by the close
sentinel either stops early with a full buffer (4096 bytes or more
gathered, sentinel not yet seen) or consumes everything up to the sentinel
and sets the closed flag; either way the bytes gathered are exactly the
consumed frames appended to the initial buffer, in order. -/
lemma readAccum_spec (fs : List (List Nat)) (buf : List Nat) :
    ∃ fs₁ fs₂, fs = fs₁ ++ fs₂ ∧
      ((readAccum (fs.map some ++ [none]) buf =
          some (fs₂.map some ++ [none], buf ++ fs₁.flatten, false) ∧
        4096 ≤ (buf ++ fs₁.flatten).length) ∨
       (fs₂ = [] ∧ readAccum (fs.map some ++ [none]) buf =
          some ([], buf ++ fs.flatten, true))) := by
  induction fs generalizing buf with
  | nil =>
    refine ⟨[], [], rfl, ?_⟩
    by_cases h : buf.length < 4096
    · right
      refine ⟨rfl, ?_⟩
      have := readAccum_sentinel [] buf h
      simpa using this
    · left
      constructor
      · have := readAccum_full ([none]) buf h
        simpa using this
      · simpa using Nat.le_of_not_lt h
  | cons f rest ih =>
    by_cases h : buf.length < 4096
    · have hstep : readAccum ((f :: rest).map some ++ [none]) buf =
          readAccum (rest.map some ++ [none]) (buf ++ f) := by
        simpa using readAccum_frame f (rest.map some ++ [none]) buf h
      obtain ⟨fs₁, fs₂, heq, hcase⟩ := ih (buf ++ f)
      have hjoin : buf ++ f ++ fs₁.flatten = buf ++ (f :: fs₁).flatten := by
        simp
      rcases hcase with ⟨hra, hlen⟩ | ⟨hnil, hra⟩
      · refine ⟨f :: fs₁, fs₂, by simp [heq], Or.inl ⟨?_, ?_⟩⟩
        · rw [hstep, hra, hjoin]
        · rw [← hjoin]
          exact hlen
      · refine ⟨f :: fs₁, fs₂, by simp [heq], Or.inr ⟨hnil, ?_⟩⟩
        rw [hstep, hra]
        have hj2 : buf ++ f ++ rest.flatten = buf ++ (f :: rest).flatten := by
          simp
        rw [hj2]
    · refine ⟨[], f :: rest, rfl, Or.inl ⟨?_, ?_⟩⟩
      · have := readAccum_full ((f :: rest).map some ++ [none]) buf h
        simpa using this
      · simpa using Nat.le_of_not_lt h

/-- C2 counterexample: a 6-byte frame is buffered when the close sentinel is
observed; a read of size 3 returns 3 bytes and leaves 3 bytes buffered on a
closed stream, and every subsequent read returns empty bytes while leaving
the state fixed: the remaining 3 bytes are never returned, falsifying the
claim that buffered bytes survive across subsequent reads. -/
theorem c2_closed_read_drops_buffer :
    AudioStream.read ⟨[some [1, 2, 3, 4, 5, 6], none], [], false⟩ 3 =
      some ([1, 2, 3], ⟨[], [4, 5, 6], true⟩) ∧
    AudioStream.read ⟨[], [4, 5, 6], true⟩ (-1) =
      some ([], ⟨[], [4, 5, 6], true⟩) ∧
    AudioStream.read ⟨[], [4, 5, 6], true⟩ 3 =
      some ([], ⟨[], [4, 5, 6], true⟩) ∧
    (drainAll 5 ⟨[], [4, 5, 6], true⟩).1 = [] := by
  refine ⟨by decide, by decide, by decide, by decide⟩

/-- C2 (amended): when every read takes the whole buffer (size -1, or any
size at least the buffered amount), all frames enqueued before the close
sentinel are drained, in order, with no byte lost or duplicated, and only
then is the closed state observed. A read with a smaller size at the moment
the sentinel is observed loses the bytes beyond size, as subsequent reads
return empty once closed. -/
theorem c2_full_reads_drain (n : Nat) (fs : List (List Nat))
    (h : fs.length < n) :
    drainAll n ⟨fs.map some ++ [none], [], false⟩ =
      (fs.flatten, ⟨[], [], true⟩) := by
  induction n generalizing fs with
  | zero => omega
  | succ n ih =>
    obtain ⟨fs₁, fs₂, heq, hcase⟩ := readAccum_spec fs []
    rcases hcase with ⟨hra, hlen⟩ | ⟨hnil, hra⟩
    · have hread : AudioStream.read ⟨fs.map some ++ [none], [], false⟩ (-1) =
          some (fs₁.flatten, ⟨fs₂.map some ++ [none], [], false⟩) := by
        unfold AudioStream.read
        simp only [hra] at *
        simp [hra]
      have hne : fs₁ ≠ [] := by
        intro hh
        rw [hh] at hlen
        simp at hlen
      have hlt : fs₂.length < n := by
        have hlen2 : fs.length = fs₁.length + fs₂.length := by
          rw [heq, List.length_append]
        have hpos : 0 < fs₁.length := List.length_pos.2 hne
        omega
      conv_lhs => unfold drainAll
      simp only [hread]
      simp only [show (⟨fs.map some ++ [none], [], false⟩ :
        AudioStream).closed = false from rfl, Bool.false_eq_true, if_false]
      rw [ih fs₂ hlt, heq, List.flatten_append]
    · have hread : AudioStream.read ⟨fs.map some ++ [none], [], false⟩ (-1) =
          some (fs.flatten, ⟨[], [], true⟩) := by
        unfold AudioStream.read
        simp [hra]
      conv_lhs => unfold drainAll
      simp only [hread]
      simp only [show (⟨fs.map some ++ [none], [], false⟩ :
        AudioStream).closed = false from rfl, Bool.false_eq_true, if_false]
      rw [drainAll_closed n ⟨[], [], true⟩ rfl]
      simp

/-- C2 witness: two small frames then the sentinel, drained with full
reads. -/
theorem c2_full_reads_drain_witness :
    drainAll 3 ⟨[some [1, 2], some [3], none], [], false⟩ =
      ([1, 2, 3], ⟨[], [], true⟩) := by
  have h := c2_full_reads_drain 3 [[1, 2], [3]] (by decide)
  simpa using h

lemma storeAdd_cons (k : String) (v : List StoredMsg)
    (rest : List (String × List StoredMsg)) (sp : String) (m : StoredMsg) :
    storeAdd ((k, v) :: rest) sp m =
      if k = sp then (k, v ++ [m]) :: rest
      else (k, v) :: storeAdd rest sp m := by
  conv_lhs => unfold storeAdd

lemma storeGet_cons (k : String) (v : List StoredMsg)
    (rest : List (String × List StoredMsg)) (sp : String) :
    storeGet ((k, v) :: rest) sp =
      if k = sp then v else storeGet rest sp := by
  conv_lhs => unfold storeGet

/-- Appending an entry for one speaker reads back as an append for that
speaker and leaves every other speaker's list unchanged. -/
lemma storeGet_storeAdd (st : List (String × List StoredMsg)) (sp sp' : String)
    (m : StoredMsg) :
    storeGet (storeAdd st sp m) sp' =
      if sp' = sp then storeGet st sp' ++ [m] else storeGet st sp' := by
  induction st with
  | nil =>
    by_cases hs : sp' = sp
    · rw [if_pos hs, show storeAdd [] sp m = [(sp, [m])] from rfl,
        storeGet_cons, if_pos hs.symm]
      rfl
    · rw [if_neg hs, show storeAdd [] sp m = [(sp, [m])] from rfl,
        storeGet_cons, if_neg (fun h => hs h.symm)]
  | cons e rest ih =>
    obtain ⟨k, v⟩ := e
    rw [storeAdd_cons]
    by_cases hk : k = sp
    · rw [if_pos hk, storeGet_cons, storeGet_cons]
      by_cases hs : k = sp'
      · rw [if_pos hs, if_pos hs, if_pos (show sp' = sp by rw [← hs, hk])]
      · rw [if_neg hs, if_neg hs]
        by_cases hsp : sp' = sp
        · exact absurd (hk.trans hsp.symm) hs
        · rw [if_neg hsp]
    · rw [if_neg hk, storeGet_cons, storeGet_cons]
      by_cases hs : k = sp'
      · rw [if_pos hs, if_pos hs,
          if_neg (show ¬sp' = sp from fun hh => hk (by rw [hs, hh]))]
      · rw [if_neg hs, if_neg hs, ih]

/-- The loop body keeps the speaker store the per-speaker view of the
published log. -/
lemma storeConsistent_processResult (st : HState) (r : SMResult)
    (h : storeConsistent st) : storeConsistent (processResult st r) := by
  cases halt : r.alternatives with
  | none =>
    rw [processResult_no_alternatives st r (by rw [halt]; rfl)]
    exact h
  | some alts =>
    cases alts with
    | nil =>
      rw [processResult_no_alternatives st r (by rw [halt]; rfl)]
      exact h
    | cons a l =>
      by_cases hb : pyStrip (a.content.getD "") = ""
      · rw [processResult_blank st r a l halt hb]
        exact h
      · rw [processResult_commit st r a l halt hb]
        intro sp
        simp only [storeGet_storeAdd, List.filter_append, List.map_append]
        by_cases hsp : sp = a.speaker.getD "unknown"
        · rw [if_pos hsp, List.map_append, h sp]
          subst hsp
          simp
        · rw [if_neg hsp, h sp]
          have hne : ((a.speaker.getD "unknown") == sp) = false := by
            simp
            exact fun hh => hsp hh.symm
          simp [hne]

lemma storeConsistent_processMsg (st : HState) (msg : Msg)
    (h : storeConsistent st) : storeConsistent (processMsg st msg) := by
  unfold processMsg
  generalize extractResults msg = rs
  induction rs generalizing st with
  | nil => exact h
  | cons r rest ih =>
    rw [List.foldl_cons]
    exact ih (processResult st r) (storeConsistent_processResult st r h)

lemma storeConsistent_processMsgs (msgs : List Msg) (st : HState)
    (h : storeConsistent st) : storeConsistent (processMsgs st msgs) := by
  induction msgs generalizing st with
  | nil => exact h
  | cons msg rest ih =>
    unfold processMsgs
    rw [List.foldl_cons]
    exact ih (processMsg st msg) (storeConsistent_processMsg st msg h)

lemma numberFrom_nil (n : Nat) : numberFrom n [] = [] := by
  rw [numberFrom.eq_def]

lemma numberFrom_cons (n : Nat) (m : Message) (rest : List Message) :
    numberFrom n (m :: rest) =
      { speaker := m.speaker, text := m.text, seq := n } ::
        numberFrom (n + 1) rest := by
  rw [numberFrom.eq_def]

lemma specTranscript_cons (n : Nat) (sp tx : String) (t : Rat)
    (rest : List (String × String × Rat)) :
    specTranscript n ((sp, tx, t) :: rest) =
      if pyStrip tx = "" then specTranscript n rest
      else { speaker := sp, text := tx, seq := n } ::
        specTranscript (n + 1) rest := by
  rw [specTranscript.eq_def]

/-- Consecutive numbering yields strictly increasing sequence numbers. -/
lemma numberFrom_chain (l : List Message) (n : Nat) :
    List.Chain' (fun a b => a.seq < b.seq) (numberFrom n l) := by
  induction l generalizing n with
  | nil =>
    rw [numberFrom_nil]
    exact List.chain'_nil
  | cons m rest ih =>
    cases rest with
    | nil =>
      rw [numberFrom_cons, numberFrom_nil]
      exact List.chain'_singleton _
    | cons m2 r2 =>
      rw [numberFrom_cons, numberFrom_cons, List.chain'_cons]
      refine ⟨Nat.lt_succ_self n, ?_⟩
      have h2 := ih (n + 1)
      rw [numberFrom_cons] at h2
      exact h2

/-- The published log of a run over single-result final events, in arrival
order: each non-blank event appends its message. -/
lemma published_finalEvents (evs : List (String × String × Rat))
    (st : HState) :
    (processMsgs st (evs.map (fun e => finalEvent e.1 e.2.1 e.2.2))).published =
      st.published ++ evs.filterMap keepMsg := by
  induction evs generalizing st with
  | nil => simp [processMsgs]
  | cons e rest ih =>
    obtain ⟨sp, tx, t⟩ := e
    have hmsg : processMsg st (finalEvent sp tx t) =
        processResult st ⟨some [⟨some tx, some sp⟩], some t⟩ := rfl
    rw [List.map_cons]
    unfold processMsgs
    rw [List.foldl_cons]
    have hfold : List.foldl processMsg (processMsg st (finalEvent sp tx t))
        (rest.map (fun e => finalEvent e.1 e.2.1 e.2.2)) =
        processMsgs (processMsg st (finalEvent sp tx t))
          (rest.map (fun e => finalEvent e.1 e.2.1 e.2.2)) := rfl
    rw [hfold, hmsg]
    by_cases hb : pyStrip tx = ""
    · have hfn : keepMsg (sp, tx, t) = none := by simp [keepMsg, hb]
      rw [processResult_blank st ⟨some [⟨some tx, some sp⟩], some t⟩
        ⟨some tx, some sp⟩ [] rfl hb]
      rw [ih st, List.filterMap_cons_none hfn]
    · have hfa : keepMsg (sp, tx, t) =
          some ⟨"transcription", sp, tx, t⟩ := by simp [keepMsg, hb]
      rw [processResult_commit st ⟨some [⟨some tx, some sp⟩], some t⟩
        ⟨some tx, some sp⟩ [] rfl hb]
      rw [ih, List.filterMap_cons_some hfa]
      simp

/-- Numbering the kept messages agrees with the log built the way the spec
words it. -/
lemma numberFrom_specTranscript (evs : List (String × String × Rat))
    (n : Nat) :
    numberFrom n (evs.filterMap keepMsg) = specTranscript n evs := by
  induction evs generalizing n with
  | nil => rfl
  | cons e rest ih =>
    obtain ⟨sp, tx, t⟩ := e
    rw [specTranscript_cons]
    by_cases hb : pyStrip tx = ""
    · have hfn : keepMsg (sp, tx, t) = none := by simp [keepMsg, hb]
      rw [if_pos hb, List.filterMap_cons_none hfn]
      exact ih n
    · have hfa : keepMsg (sp, tx, t) =
          some ⟨"transcription", sp, tx, t⟩ := by simp [keepMsg, hb]
      rw [if_neg hb, List.filterMap_cons_some hfa, numberFrom_cons, ih]

/-- C5: the commit log (published messages numbered by 1-based commit
position, the code keeping no explicit counter) has strictly increasing
sequence numbers for every event sequence; for single-result final events it
equals the log built from the specification wording, so per-speaker text
order matches arrival order of that speaker's final events; the per-speaker
store is the per-speaker view of the commit log; and the scenario A, B, A
with hi, yo, there yields exactly the claimed log. -/
theorem c5_transcript_ordering :
    codeLog [finalEvent "A" "hi" 0, finalEvent "B" "yo" 0,
        finalEvent "A" "there" 0] =
      [{ speaker := "A", text := "hi", seq := 1 },
       { speaker := "B", text := "yo", seq := 2 },
       { speaker := "A", text := "there", seq := 3 }] ∧
    (∀ msgs : List Msg,
      List.Chain' (fun a b => a.seq < b.seq) (codeLog msgs)) ∧
    (∀ evs : List (String × String × Rat),
      codeLog (evs.map (fun e => finalEvent e.1 e.2.1 e.2.2)) =
        specTranscript 1 evs) ∧
    (∀ (msgs : List Msg) (sp : String),
      (storeGet (processMsgs initState msgs).speaker_messages sp).map
          StoredMsg.text =
        ((processMsgs initState msgs).published.filter
            (fun m => m.speaker == sp)).map Message.text) := by
  refine ⟨by decide, ?_, ?_, ?_⟩
  · intro msgs
    exact numberFrom_chain _ 1
  · intro evs
    unfold codeLog
    rw [published_finalEvents evs initState,
      show initState.published = [] from rfl, List.nil_append]
    exact numberFrom_specTranscript evs 1
  · intro msgs sp
    exact storeConsistent_processMsgs msgs initState (fun _ => rfl) sp

end Dialogue
